import Mathlib

/-!
Verification of the statement-normalization and ledger-extraction pipeline of
a one-file financial dashboard (streamlit_app.py).

The embedding models, from the source:
- normalize_columns: header normalization (NFKD accent strip, lowercase, strip);
- parse_csv: the tabular record validator (required columns, defaulting,
  type derivation from the raw amount sign, date and amount coercion);
- parse_pdf: the line-based ledger text extractor (current-date cursor,
  currency-numeral recognition, record emission);
- the module-body sign normalizer (tipo normalization, amount sign rewrite);
- the filter and aggregation facade (mask, rec/desp/lucro metrics, top5).

Modelling conventions, noted where they matter:
- pandas cells are modelled by Cell (numeric, string, parsed date, missing);
- Python exceptions that escape (TypeError, KeyError) and st.stop halts are
  modelled by the Res result type with a Halt value;
- rational numbers stand in for Python floats (every literal the pipeline
  parses is a finite decimal, so no rounding behavior is exercised);
- character-level Unicode behavior (NFKD decomposition, str.lower) is
  modelled on the ASCII plus Portuguese-accented alphabet the app works on;
  other characters are left unchanged.
-/

set_option maxRecDepth 8000

/-! ## Python character and string primitives -/

/-- Whitespace as stripped by str.strip and matched by the regex class
backslash-s (ASCII fragment). -/
def isPySpace (c : Char) : Bool :=
  c == ' ' || c == '\t' || c == '\n' || c == '\x0d' || c == '\x0b' || c == '\x0c'

/-- unicodedata.normalize(NFKD, .) followed by dropping combining marks, on one
character, for the Portuguese-accented letters the app processes; the base
letter is produced directly in lowercase because every call site lowercases
immediately afterwards, so the composite agrees with the source. Characters
outside the table are returned unchanged. -/
def stripAccentChar (c : Char) : Char :=
  match c with
  | 'á' | 'à' | 'â' | 'ã' | 'ä' | 'Á' | 'À' | 'Â' | 'Ã' | 'Ä' => 'a'
  | 'é' | 'è' | 'ê' | 'ë' | 'É' | 'È' | 'Ê' | 'Ë' => 'e'
  | 'í' | 'ì' | 'î' | 'ï' | 'Í' | 'Ì' | 'Î' | 'Ï' => 'i'
  | 'ó' | 'ò' | 'ô' | 'õ' | 'ö' | 'Ó' | 'Ò' | 'Ô' | 'Õ' | 'Ö' => 'o'
  | 'ú' | 'ù' | 'û' | 'ü' | 'Ú' | 'Ù' | 'Û' | 'Ü' => 'u'
  | 'ç' | 'Ç' => 'c'
  | 'ñ' | 'Ñ' => 'n'
  | c => c

/-- str.lower on one character (ASCII fragment; accented uppercase letters are
already gone after stripAccentChar at every call site). -/
def pyLowerChar (c : Char) : Char :=
  match c with
  | 'A' => 'a' | 'B' => 'b' | 'C' => 'c' | 'D' => 'd' | 'E' => 'e' | 'F' => 'f'
  | 'G' => 'g' | 'H' => 'h' | 'I' => 'i' | 'J' => 'j' | 'K' => 'k' | 'L' => 'l'
  | 'M' => 'm' | 'N' => 'n' | 'O' => 'o' | 'P' => 'p' | 'Q' => 'q' | 'R' => 'r'
  | 'S' => 's' | 'T' => 't' | 'U' => 'u' | 'V' => 'v' | 'W' => 'w' | 'X' => 'x'
  | 'Y' => 'y' | 'Z' => 'z'
  | c => c

/-- The per-character composite of accent stripping then lowercasing, applied
by both normalize_columns and the tipo normalizer. -/
def normChar (c : Char) : Char := pyLowerChar (stripAccentChar c)

/-- Remove trailing whitespace (the right half of str.strip). -/
def dropTrail (l : List Char) : List Char := (l.reverse.dropWhile isPySpace).reverse

/-- str.strip on a character list. -/
def trimChars (l : List Char) : List Char := dropTrail (l.dropWhile isPySpace)

/-- str.strip. -/
def pyStrip (s : String) : String := String.mk (trimChars s.data)

/-- The normalization both of normalize_columns and of the sign normalizer
applied to tipo: NFKD accent strip, then lower(), then strip(). -/
def normStr (s : String) : String := String.mk (trimChars (s.data.map normChar))

/-- Numeric value of a decimal digit character. -/
def digitVal (c : Char) : ℕ := c.toNat - 48

/-- The natural number denoted by a digit list (most significant first). -/
def natOfDigits (l : List Char) : ℕ := l.foldl (fun a c => a * 10 + digitVal c) 0

/-- Python float() restricted to strings of digits and dots, the only shape
reaching it in this program (the regex group admits digits, dots and commas,
and the conversion first removes dots and turns commas into dots). Accepts
"123", "1.5", ".5" and "5."; rejects the empty string, a lone dot number and
anything with two or more dots. -/
def pyFloatDigits (l : List Char) : Option ℚ :=
  if l.all (fun c => c.isDigit || c == '.') then
    match (l.filter (fun c => c == '.')).length with
    | 0 => if l.isEmpty then none else some ((natOfDigits l : ℚ))
    | 1 =>
      let a := l.takeWhile (fun c => c != '.')
      let b := (l.dropWhile (fun c => c != '.')).drop 1
      if a.isEmpty && b.isEmpty then none
      else some ((natOfDigits a : ℚ) + mkRat (natOfDigits b) (10 ^ b.length))
    | _ => none
  else none

/-- pd.to_numeric applied to one string cell, modelled as an optional sign
followed by a digits-and-dot numeral (no exponent forms: the app never feeds
them). Failure means coercion to missing. -/
def parseNumStr (s : String) : Option ℚ :=
  match s.data with
  | '-' :: rest => (pyFloatDigits rest).map (fun q => -q)
  | '+' :: rest => pyFloatDigits rest
  | l => pyFloatDigits l

/-- Gregorian leap year. -/
def isLeap (y : ℕ) : Bool := (y % 4 == 0 && y % 100 != 0) || y % 400 == 0

def daysInMonth (m y : ℕ) : ℕ :=
  if m == 1 || m == 3 || m == 5 || m == 7 || m == 8 || m == 10 || m == 12 then 31
  else if m == 4 || m == 6 || m == 9 || m == 11 then 30
  else if isLeap y then 29 else 28

/-- A calendar day as day-month-year, the content of a parsed Timestamp. -/
structure DateV where
  day : ℕ
  month : ℕ
  year : ℕ
deriving DecidableEq

def validDMY (dd mm yy : ℕ) : Bool :=
  decide (1 ≤ mm) && decide (mm ≤ 12) && decide (1 ≤ dd)
    && decide (dd ≤ daysInMonth mm yy) && decide (1 ≤ yy) && decide (yy ≤ 9999)

/-- Split a character list on the slash character (str.split-like; groups keep
order and may be empty). -/
def splitSlash : List Char → List (List Char)
  | [] => [[]]
  | c :: cs =>
    if c == '/' then [] :: splitSlash cs
    else match splitSlash cs with
      | [] => [[c]]
      | g :: gs => (c :: g) :: gs

/-- pd.to_datetime(x, dayfirst=True, errors="coerce") on one string cell,
modelled for the slash-separated day-first dates this app produces and
consumes (D/M/YYYY with one- or two-digit day and month and a four-digit
year, calendar-validated); every other string coerces to missing. -/
def parseDateStr (s : String) : Option DateV :=
  match splitSlash s.data with
  | [d, m, y] =>
    if d.all Char.isDigit && m.all Char.isDigit && y.all Char.isDigit
        && decide (1 ≤ d.length) && decide (d.length ≤ 2)
        && decide (1 ≤ m.length) && decide (m.length ≤ 2)
        && decide (y.length = 4) then
      let dd := natOfDigits d
      let mm := natOfDigits m
      let yy := natOfDigits y
      if validDMY dd mm yy then some ⟨dd, mm, yy⟩ else none
    else none
  | _ => none

/-! ## The data model: cells, tables, halts -/

/-- A pandas cell as this pipeline can observe it: a numeric value, a string,
a parsed date, or missing (NaN and NaT collapsed). -/
inductive Cell where
  | num (q : ℚ)
  | str (s : String)
  | date (d : DateV)
  | na
deriving DecidableEq

/-- A DataFrame: ordered column names and rows of cells, row cells aligned
with the column list by position. -/
structure Table where
  cols : List String
  rows : List (List Cell)
deriving DecidableEq

/-- How a run can end abnormally: a user-facing st.error plus st.stop halt,
or an uncaught Python exception. -/
inductive Halt where
  | stop (msg : String)
  | exn (msg : String)
deriving DecidableEq

/-- Result of a fallible step. -/
inductive Res (α : Type) where
  | ok (a : α) : Res α
  | error (e : Halt) : Res α
deriving DecidableEq

def mapRes {α β : Type} (f : α → β) : Res α → Res β
  | .ok a => .ok (f a)
  | .error e => .error e

/-- Apply a fallible function to every list element, stopping at the first
failure (a raised exception aborts the whole .apply). -/
def listRes {α β : Type} (f : α → Res β) : List α → Res (List β)
  | [] => .ok []
  | x :: xs =>
    match f x with
    | .error e => .error e
    | .ok y =>
      match listRes f xs with
      | .error e => .error e
      | .ok ys => .ok (y :: ys)

/-- Index of the first column with the given name. -/
def colIdx (n : String) : List String → Option ℕ
  | [] => none
  | c :: cs => if c = n then some 0 else (colIdx n cs).map (fun i => i + 1)

/-- Rewrite the cell at one position of a row (out of range: unchanged). -/
def modCell (f : Cell → Cell) : ℕ → List Cell → List Cell
  | _, [] => []
  | 0, c :: cs => f c :: cs
  | i + 1, c :: cs => c :: modCell f i cs

/-- df[n] = constant on a missing column: append the column. -/
def addCol (t : Table) (n : String) (c : Cell) : Table :=
  ⟨t.cols ++ [n], t.rows.map (fun r => r ++ [c])⟩

/-- df[n] = f(df[n]) on an existing column. -/
def mapColByName (n : String) (f : Cell → Cell) (t : Table) : Table :=
  match colIdx n t.cols with
  | some i => ⟨t.cols, t.rows.map (modCell f i)⟩
  | none => t

/-! ## parse_csv: the tabular record validator -/

/-- normalize_columns: every header accent-stripped, lowercased and
stripped of surrounding whitespace. -/
def normalize_columns (cols : List String) : List String := cols.map normStr

/-- pd.to_datetime(col, dayfirst=True, errors="coerce") on one cell. An
already-parsed date passes through; an unparsable string and a missing cell
coerce to missing. A numeric cell is modelled as missing (pandas would read
it as an epoch offset, a shape this pipeline never produces). -/
def toDatetimeCell : Cell → Cell
  | .str s =>
    match parseDateStr s with
    | some d => .date d
    | none => .na
  | .date d => .date d
  | .num _ => .na
  | .na => .na

/-- pd.to_numeric(col, errors="coerce").fillna(0.0) on one cell. A date cell
is modelled as coercing to the zero default (unreachable: the valor column of
this app never holds dates). -/
def toNumericFillCell : Cell → Cell
  | .num q => .num q
  | .str s =>
    match parseNumStr s with
    | some q => .num q
    | none => .num 0
  | .na => .num 0
  | .date _ => .num 0

/-- One evaluation of the lambda at line 38 of the source,
x maps to Entrada when x > 0 else Saída, on the RAW cell, before any numeric
coercion: comparing a string (or a Timestamp) with 0 raises TypeError in
Python 3; NaN compares False and yields Saída. -/
def deriveTipoCell : Cell → Res String
  | .num q => .ok (if 0 < q then "Entrada" else "Saída")
  | .na => .ok "Saída"
  | .str _ => .error (.exn "TypeError")
  | .date _ => .error (.exn "TypeError")

/-- Backfill the descricao column when absent. -/
def descStep (t : Table) : Table :=
  if "descricao" ∈ t.cols then t else addCol t "descricao" (Cell.str "N/A")

/-- Derive the tipo column from the raw valor sign when absent. -/
def tipoStep (t : Table) : Res Table :=
  if "tipo" ∈ t.cols then .ok t
  else
    match colIdx "valor" t.cols with
    | some vi =>
      mapRes (fun rs => (⟨t.cols ++ ["tipo"], rs⟩ : Table))
        (listRes
          (fun r => mapRes (fun s => r ++ [Cell.str s]) (deriveTipoCell (r.getD vi Cell.na)))
          t.rows)
    | none => .ok t

/-- Backfill the categoria column when absent. -/
def catStep (t : Table) : Table :=
  if "categoria" ∈ t.cols then t else addCol t "categoria" (Cell.str "N/A")

/-- The two coercions at the end of parse_csv: data to datetime, then valor
to numeric with the 0.0 default. -/
def convSteps (t : Table) : Table :=
  mapColByName "valor" toNumericFillCell (mapColByName "data" toDatetimeCell t)

/-- parse_csv: normalize headers, halt when data or valor is missing, backfill
descricao, derive tipo when absent, backfill categoria, then coerce the data
and valor columns. -/
def parse_csv (t : Table) : Res Table :=
  let t1 : Table := ⟨normalize_columns t.cols, t.rows⟩
  if "data" ∉ t1.cols then .error (.stop "CSV inválido: coluna 'data' não encontrada.")
  else if "valor" ∉ t1.cols then .error (.stop "CSV inválido: coluna 'valor' não encontrada.")
  else mapRes (fun t3 => convSteps (catStep t3)) (tipoStep (descStep t1))

/-! ## parse_pdf: the ledger text extractor -/

/-- The anchored date regex of the extractor: exactly two digits, slash, two
digits, slash, four digits. -/
def matchesDateShape : List Char → Bool
  | [a, b, s1, c, d, s2, e, f, g, h] =>
    a.isDigit && b.isDigit && s1 == '/' && c.isDigit && d.isDigit && s2 == '/'
      && e.isDigit && f.isDigit && g.isDigit && h.isDigit
  | _ => false

/-- datetime.strptime(s, day/month/year) on a regex-shaped line: digits are
read positionally and the calendar is validated; failure is a ValueError the
source catches. -/
def strptimeDMY (l : List Char) : Option DateV :=
  if matchesDateShape l then
    match l with
    | [a, b, _, c, d, _, e, f, g, h] =>
      let dd := digitVal a * 10 + digitVal b
      let mm := digitVal c * 10 + digitVal d
      let yy := natOfDigits [e, f, g, h]
      if validDMY dd mm yy then some ⟨dd, mm, yy⟩ else none
    | _ => none
  else none

/-- The substring test (R-dollar in line). -/
def containsRS : List Char → Bool
  | [] => false
  | 'R' :: '$' :: _ => true
  | _ :: cs => containsRS cs

/-- Characters of the currency numeral group. -/
def isNumTok (c : Char) : Bool := c.isDigit || c == '.' || c == ','

/-- re.search for the pattern R-dollar, whitespace, then one or more digits,
dots or commas: scan left to right and return the match start and the greedy
numeral group of the first position where the whole pattern matches. -/
def findVal : List Char → ℕ → Option (ℕ × List Char)
  | [], _ => none
  | c :: cs, pos =>
    if c == 'R' && cs.head? == some '$' then
      let g := ((cs.drop 1).dropWhile isPySpace).takeWhile isNumTok
      if g.isEmpty then findVal cs (pos + 1) else some (pos, g)
    else findVal cs (pos + 1)

/-- The numeral cleanup before float(): remove dots (thousands separators),
then turn the decimal comma into a dot. -/
def commaFix (l : List Char) : List Char :=
  (l.filter (fun c => c != '.')).map (fun c => if c == ',' then '.' else c)

def fmt2 (n : ℕ) : String := if n < 10 then "0" ++ toString n else toString n

/-- strftime with the day/month/year format used for the record date field. -/
def strftimeDMY (d : DateV) : String :=
  fmt2 d.day ++ "/" ++ fmt2 d.month ++ "/" ++ toString d.year

/-- One emitted ledger record (the dict appended by parse_pdf). -/
structure PdfRec where
  data : String
  descricao : String
  valor : ℚ
  tipo : String
  categoria : String
deriving DecidableEq

/-- One loop iteration of parse_pdf over a line: strip it; a pure date line
updates the current-date cursor (to unset on strptime failure) and emits
nothing; otherwise a currency match with a set cursor and a convertible
numeral emits one record; everything else changes nothing. -/
def pdfStep (st : Option DateV × List PdfRec) (line : String) : Option DateV × List PdfRec :=
  let cs := trimChars line.data
  if matchesDateShape cs && !containsRS cs then
    (strptimeDMY cs, st.2)
  else
    match findVal cs 0, st.1 with
    | some (i, g), some d =>
      match pyFloatDigits (commaFix g) with
      | some v =>
        let d0 := String.mk (trimChars (cs.take i))
        let desc := if d0 = "" then "N/A" else d0
        (some d, st.2 ++
          [⟨strftimeDMY d, desc, v, if 0 < v then "Entrada" else "Saída", "N/A"⟩])
      | none => st
    | _, _ => st

/-- str.splitlines restricted to newline separators (the extractor only sees
text joined with plain newlines): split on newline, without a trailing empty
chunk for a trailing newline. -/
def splitNl : List Char → List (List Char)
  | [] => [[]]
  | c :: cs =>
    if c == '\n' then [] :: splitNl cs
    else
      match splitNl cs with
      | [] => [[c]]
      | g :: gs => (c :: g) :: gs

def dropLastEmpty : List String → List String
  | [] => []
  | [x] => if x = "" then [] else [x]
  | x :: xs => x :: dropLastEmpty xs

def pySplitlines (s : String) : List String := dropLastEmpty ((splitNl s.data).map String.mk)

/-- The pure text-processing part of parse_pdf: fold the per-line step over
the extracted text with an unset date cursor and no records. -/
def extractRecords (text : String) : List PdfRec :=
  ((pySplitlines text).foldl pdfStep (none, [])).2

/-- pd.DataFrame(records): the five fixed columns in dict order, or a
column-less empty frame when no record was emitted. -/
def parse_pdf (text : String) : Table :=
  let rs := extractRecords text
  if rs.isEmpty then ⟨[], []⟩
  else
    ⟨["data", "descricao", "valor", "tipo", "categoria"],
      rs.map (fun r =>
        [Cell.str r.data, Cell.str r.descricao, Cell.num r.valor,
         Cell.str r.tipo, Cell.str r.categoria])⟩

/-! ## The sign normalizer (module body, lines 106 to 115) -/

/-- str(x) as .astype(str) applies it to a cell. Non-string cells never reach
this in the app (tipo always holds strings after parse_csv); their renderings
are modelled loosely. -/
def pyStrOfCell : Cell → String
  | .str s => s
  | .num q => toString q
  | .na => "nan"
  | .date d => strftimeDMY d

/-- Line 108 on one tipo cell: str(x), accent strip, lower, strip. -/
def normTipoCell (c : Cell) : Cell := Cell.str (normStr (pyStrOfCell c))

/-- The row lambda at lines 112 to 114: valor becomes -abs(valor) when the
(already normalized) tipo equals saida, abs(valor) otherwise. abs of a
missing value is missing; abs of a string or Timestamp raises TypeError. -/
def rewriteValor (ti vi : ℕ) (r : List Cell) : Res (List Cell) :=
  let isSaida : Bool :=
    match r.getD ti Cell.na with
    | .str s => s == "saida"
    | _ => false
  match r.getD vi Cell.na with
  | .num q => .ok (modCell (fun _ => Cell.num (if isSaida then -|q| else |q|)) vi r)
  | .na => .ok (modCell (fun _ => Cell.na) vi r)
  | _ => .error (.exn "TypeError")

/-- The sign normalizer: normalize the tipo column (str, accent strip, lower,
strip), then rewrite each valor from its tipo. A missing tipo or valor column
would raise KeyError. -/
def signNormalize (t : Table) : Res Table :=
  match colIdx "tipo" t.cols, colIdx "valor" t.cols with
  | some ti, some vi =>
    let rows1 := t.rows.map (modCell normTipoCell ti)
    mapRes (fun rs => (⟨t.cols, rs⟩ : Table)) (listRes (rewriteValor ti vi) rows1)
  | _, _ => .error (.exn "KeyError")

/-! ## The filter and aggregation facade (module body, lines 117 to 151) -/

def dateKey (d : DateV) : ℕ := d.year * 10000 + d.month * 100 + d.day

/-- Timestamp comparison against a bound: NaT (and any non-date cell)
compares False. -/
def cellDateGE (c : Cell) (d : DateV) : Bool :=
  match c with
  | .date x => decide (dateKey d ≤ dateKey x)
  | _ => false

def cellDateLE (c : Cell) (d : DateV) : Bool :=
  match c with
  | .date x => decide (dateKey x ≤ dateKey d)
  | _ => false

/-- Elementwise equality of a cell against a selector string: a non-string
cell compares False. -/
def cellEqStr (c : Cell) (s : String) : Bool :=
  match c with
  | .str x => x == s
  | _ => false

/-- The sidebar mask: date within the inclusive range, and the category and
type constraints unless the selector is the All sentinel. Missing columns
would raise KeyError. -/
def filterTable (t : Table) (s e : DateV) (cat tp : String) : Res Table :=
  match colIdx "data" t.cols, colIdx "categoria" t.cols, colIdx "tipo" t.cols with
  | some di, some ci, some ti =>
    .ok ⟨t.cols, t.rows.filter (fun r =>
      cellDateGE (r.getD di Cell.na) s && cellDateLE (r.getD di Cell.na) e
        && (cat == "All" || cellEqStr (r.getD ci Cell.na) cat)
        && (tp == "All" || cellEqStr (r.getD ti Cell.na) tp))⟩
  | _, _, _ => .error (.exn "KeyError")

/-- The valor column as the list of its numeric values (pandas sums skip
missing values; non-numeric cells never reach the metrics in this app). -/
def valorColumn (t : Table) : List ℚ :=
  match colIdx "valor" t.cols with
  | some vi =>
    t.rows.filterMap (fun r =>
      match r.getD vi Cell.na with
      | .num q => some q
      | _ => none)
  | none => []

/-- rec: the sum of the positive amounts (Receita). -/
def rec' (l : List ℚ) : ℚ := (l.filter (fun x => 0 < x)).sum

/-- desp: the negated sum of the negative amounts (Despesa). -/
def desp (l : List ℚ) : ℚ := -((l.filter (fun x => x < 0)).sum)

/-- lucro = rec - desp. -/
def lucro (l : List ℚ) : ℚ := rec' l - desp l

/-- Python string comparison: code-point lexicographic order, which is what
the library order on String is. -/
def strLt (a b : String) : Bool := decide (a < b)

/-- Ordered insertion without duplicates (groupby sorts group keys). -/
def insKey (k : String) : List String → List String
  | [] => [k]
  | x :: xs =>
    if strLt k x then k :: x :: xs
    else if k = x then x :: xs
    else x :: insKey k xs

/-- The sorted distinct keys of a pair list. -/
def sortedKeys (ps : List (String × ℚ)) : List String :=
  (ps.map Prod.fst).foldr insKey []

/-- The valor sum of one description group. -/
def groupSum (ps : List (String × ℚ)) (k : String) : ℚ :=
  ((ps.filter (fun p => p.1 == k)).map Prod.snd).sum

/-- groupby(descricao)[valor].sum().abs(): groups in ascending key order, one
absolute sum per group. -/
def groupSums (ps : List (String × ℚ)) : List (String × ℚ) :=
  (sortedKeys ps).map (fun k => (k, |groupSum ps k|))

/-- Stable insertion for a descending sort by value: an element is placed
before the first element whose value does not exceed it, so earlier elements
stay first among ties (nlargest keeps the first occurrences). -/
def insDesc (x : String × ℚ) : List (String × ℚ) → List (String × ℚ)
  | [] => [x]
  | y :: ys => if y.2 ≤ x.2 then x :: y :: ys else y :: insDesc x ys

/-- Stable descending sort by value. -/
def sortDesc : List (String × ℚ) → List (String × ℚ)
  | [] => []
  | x :: xs => insDesc x (sortDesc xs)

/-- Series.nlargest(5): the five largest values in descending order, earliest
index first among ties. -/
def nlargest5 (l : List (String × ℚ)) : List (String × ℚ) := (sortDesc l).take 5

/-- The expense rows as (descricao, valor) pairs: rows whose valor is a
negative number (missing group keys are dropped, as groupby drops NaN). -/
def expensePairs (t : Table) : List (String × ℚ) :=
  match colIdx "descricao" t.cols, colIdx "valor" t.cols with
  | some di, some vi =>
    t.rows.filterMap (fun r =>
      match r.getD vi Cell.na, r.getD di Cell.na with
      | .num q, .str s => if q < 0 then some (s, q) else none
      | _, _ => none)
  | _, _ => []

/-- top5: filter the rows with valor below zero, group by descricao, sum,
take absolute values, and keep the five largest. -/
def top5 (t : Table) : Res (List (String × ℚ)) :=
  match colIdx "descricao" t.cols, colIdx "valor" t.cols with
  | some _, some _ => .ok (nlargest5 (groupSums (expensePairs t)))
  | _, _ => .error (.exn "KeyError")

/-! ## General lemmas about Res -/

lemma mapRes_eq_error {α β : Type} (f : α → β) (r : Res α) (e : Halt) :
    mapRes f r = .error e ↔ r = .error e := by
  cases r <;> simp [mapRes]

lemma mapRes_eq_ok {α β : Type} (f : α → β) (r : Res α) (b : β) :
    mapRes f r = .ok b ↔ ∃ a, r = .ok a ∧ b = f a := by
  cases r <;> simp [mapRes, eq_comm]

lemma listRes_error_mem {α β : Type} (f : α → Res β) (e : Halt) :
    ∀ l : List α, listRes f l = .error e → ∃ x ∈ l, f x = .error e := by
  intro l
  induction l with
  | nil => simp [listRes]
  | cons x xs ih =>
    simp only [listRes]
    cases hfx : f x with
    | error e2 =>
      intro h
      cases h
      exact ⟨x, by simp, hfx⟩
    | ok y =>
      cases hrest : listRes f xs with
      | error e2 =>
        intro h
        cases h
        obtain ⟨z, hz, hfz⟩ := ih hrest
        exact ⟨z, by simp [hz], hfz⟩
      | ok ys => intro h; cases h

lemma listRes_ok_forall₂ {α β : Type} (f : α → Res β) :
    ∀ (l : List α) (l2 : List β), listRes f l = .ok l2 →
      List.Forall₂ (fun a b => f a = .ok b) l l2 := by
  intro l
  induction l with
  | nil => intro l2 h; cases h; exact List.Forall₂.nil
  | cons x xs ih =>
    intro l2
    simp only [listRes]
    cases hfx : f x with
    | error e2 => intro h; cases h
    | ok y =>
      cases hrest : listRes f xs with
      | error e2 => intro h; cases h
      | ok ys =>
        intro h
        cases h
        exact List.Forall₂.cons hfx (ih ys hrest)

/-! ## Claim C3 -/

lemma tipoStep_no_stop (u : Table) (m : String) : tipoStep u ≠ .error (Halt.stop m) := by
  intro h
  unfold tipoStep at h
  split at h
  · cases h
  · cases hidx : colIdx "valor" u.cols with
    | none => rw [hidx] at h; cases h
    | some vi =>
      rw [hidx, mapRes_eq_error] at h
      obtain ⟨x, _, hfx⟩ := listRes_error_mem _ _ _ h
      rw [mapRes_eq_error] at hfx
      cases hc : x.getD vi Cell.na <;> rw [hc] at hfx <;> simp [deriveTipoCell] at hfx

/-- C3: if the normalized table lacks a data column or a valor column,
parse_csv halts with the user-facing message naming the missing column (and
hence produces no records); when both are present, the fatal check does not
fire: no stop halt can come out of parse_csv. -/
theorem required_columns_fatal (t : Table) :
    ("data" ∉ normalize_columns t.cols →
        parse_csv t = .error (.stop "CSV inválido: coluna 'data' não encontrada.")) ∧
    ("data" ∈ normalize_columns t.cols → "valor" ∉ normalize_columns t.cols →
        parse_csv t = .error (.stop "CSV inválido: coluna 'valor' não encontrada.")) ∧
    ("data" ∈ normalize_columns t.cols → "valor" ∈ normalize_columns t.cols →
        ∀ m, parse_csv t ≠ .error (Halt.stop m)) := by
  refine ⟨fun h => ?_, fun h1 h2 => ?_, fun h1 h2 m hc => ?_⟩
  · simp [parse_csv, h]
  · simp [parse_csv, h1, h2]
  · simp only [parse_csv, h1, h2, not_true_eq_false, if_false, if_neg, not_false_eq_true,
      mapRes_eq_error] at hc
    exact tipoStep_no_stop _ _ hc

/-- C3 witness: a table whose only (normalized) column is data halts with the
message naming valor. -/
theorem required_columns_fatal_witness :
    parse_csv ⟨["Data"], []⟩ = .error (.stop "CSV inválido: coluna 'valor' não encontrada.") :=
  (required_columns_fatal ⟨["Data"], []⟩).2.1 (by with_unfolding_all decide)
    (by with_unfolding_all decide)

/-! ## Claims C4 and C5: the line 38 TypeError -/

/-- C4: a table that passes both fatal required-column checks and carries a
string amount cell (the usual Brazilian decimal-comma form) with no tipo
column makes the validator raise an uncaught TypeError: the lambda deriving
tipo compares the raw string cell with 0 before to_numeric runs, so a single
such row aborts the whole ingestion, contradicting the no-escaping-exception
claim. -/
theorem typeerror_escapes_validator :
    parse_csv ⟨["data", "valor"], [[Cell.str "01/01/2024", Cell.str "1.234,56"]]⟩ =
      .error (.exn "TypeError") ∧
    "data" ∈ normalize_columns ["data", "valor"] ∧
    "valor" ∈ normalize_columns ["data", "valor"] := by
  with_unfolding_all decide

/-- C5: the code derives tipo from the RAW amount cell, not the parsed one:
on a non-numeric cell the claim predicts the parsed default 0.0 and hence
Saída, but parse_csv raises TypeError instead (the numeric coercion that
would produce the 0.0 default, and the Saída it would induce, are shown in
the last two conjuncts). -/
theorem tipo_derived_before_numeric_coercion :
    parse_csv ⟨["Data", "Valor"], [[Cell.str "01/01/2024", Cell.str "abc"]]⟩ =
      .error (.exn "TypeError") ∧
    toNumericFillCell (Cell.str "abc") = Cell.num 0 ∧
    deriveTipoCell (Cell.num 0) = .ok "Saída" := by
  with_unfolding_all decide

/-! ## Claim C6 -/

/-- C6: the extractor turns the two-line synthetic text into exactly one
record: date string 01/03/2024 (which parses day-first to 1 March 2024),
description Supermercado, amount 150, type Entrada (Income). -/
theorem extractor_roundtrip :
    extractRecords "01/03/2024\nSupermercado R$ 150,00\n" =
      [⟨"01/03/2024", "Supermercado", 150, "Entrada", "N/A"⟩] ∧
    strptimeDMY ("01/03/2024".data) = some ⟨1, 3, 2024⟩ := by
  with_unfolding_all decide

/-! ## Claim C7 -/

/-- C7: while the current-date cursor is unset no line can emit a record
(a currency line is dropped silently, a date line only sets the cursor); in
particular the single-line text with only a currency numeral yields zero
records. -/
theorem amount_line_without_date :
    (∀ (line : String) (recs : List PdfRec), (pdfStep (none, recs) line).2 = recs) ∧
    extractRecords "R$ 50,00" = [] := by
  constructor
  · intro line recs
    unfold pdfStep
    dsimp only
    split
    · rfl
    · rcases findVal (trimChars line.data) 0 with _ | ⟨i, g⟩ <;> rfl
  · with_unfolding_all decide

/-! ## Claim C2 -/

lemma sum_filter_neg_nonpos (l : List ℚ) : (l.filter (fun x => x < 0)).sum ≤ 0 := by
  induction l with
  | nil => simp
  | cons x xs ih =>
    rw [List.filter_cons]
    split
    · rename_i h
      simp only [decide_eq_true_eq] at h
      simpa using add_nonpos h.le ih
    · exact ih

lemma desp_nonneg (l : List ℚ) : 0 ≤ desp l := by
  unfold desp
  rw [neg_nonneg]
  exact sum_filter_neg_nonpos l

/-- C2: over any filtered record set the metrics satisfy lucro = rec - desp,
desp is non-negative (it is the negated sum of the negative amounts), and an
empty filtered set makes all three metrics zero. -/
theorem metrics_net_relation (t : Table) (s e : DateV) (cat tp : String) (t' : Table)
    (_h : filterTable t s e cat tp = .ok t') :
    lucro (valorColumn t') = rec' (valorColumn t') - desp (valorColumn t') ∧
    0 ≤ desp (valorColumn t') ∧
    (valorColumn t' = [] →
      rec' (valorColumn t') = 0 ∧ desp (valorColumn t') = 0 ∧ lucro (valorColumn t') = 0) := by
  refine ⟨rfl, desp_nonneg _, fun h0 => ?_⟩
  rw [h0]
  refine ⟨rfl, by simp [desp], by simp [lucro, rec', desp]⟩

/-- C2 witness: a date filter matching no record of a one-row table gives the
empty filtered set, where the relation and the zero metrics hold. -/
theorem metrics_net_relation_witness :
    lucro (valorColumn ⟨["data", "categoria", "tipo", "valor"], []⟩) =
      rec' (valorColumn ⟨["data", "categoria", "tipo", "valor"], []⟩) -
        desp (valorColumn ⟨["data", "categoria", "tipo", "valor"], []⟩) ∧
    0 ≤ desp (valorColumn ⟨["data", "categoria", "tipo", "valor"], []⟩) ∧
    (valorColumn ⟨["data", "categoria", "tipo", "valor"], []⟩ = [] →
      rec' (valorColumn ⟨["data", "categoria", "tipo", "valor"], []⟩) = 0 ∧
      desp (valorColumn ⟨["data", "categoria", "tipo", "valor"], []⟩) = 0 ∧
      lucro (valorColumn ⟨["data", "categoria", "tipo", "valor"], []⟩) = 0) :=
  metrics_net_relation
    ⟨["data", "categoria", "tipo", "valor"],
      [[Cell.date ⟨1, 1, 2024⟩, Cell.str "N/A", Cell.str "entrada", Cell.num 5]]⟩
    ⟨1, 1, 2025⟩ ⟨2, 1, 2025⟩ "All" "All" ⟨["data", "categoria", "tipo", "valor"], []⟩
    (by with_unfolding_all decide)

/-! ## Claim C10 -/

lemma pyFloatDigits_nonneg (l : List Char) (q : ℚ) (h : pyFloatDigits l = some q) : 0 ≤ q := by
  unfold pyFloatDigits at h
  split at h
  · split at h
    · split at h
      · cases h
      · injection h with h
        subst h
        exact Nat.cast_nonneg _
    · dsimp only at h
      split at h
      · cases h
      · injection h with h
        subst h
        refine add_nonneg (Nat.cast_nonneg _) ?_
        rw [Rat.mkRat_eq_div]
        positivity
    · cases h
  · cases h

lemma pdfStep_mem (st : Option DateV × List PdfRec) (line : String) (r : PdfRec)
    (h : r ∈ (pdfStep st line).2) :
    r ∈ st.2 ∨ (0 ≤ r.valor ∧ (r.tipo = "Saída" → r.valor = 0)) := by
  unfold pdfStep at h
  dsimp only at h
  split at h
  · exact Or.inl h
  · split at h
    · rename_i i g d heq
      split at h
      · rename_i v hv
        rw [List.mem_append, List.mem_singleton] at h
        rcases h with h | h
        · exact Or.inl h
        · subst h
          right
          have hnn : 0 ≤ v := pyFloatDigits_nonneg _ _ hv
          refine ⟨hnn, ?_⟩
          dsimp only
          split
          · intro habs
            exact absurd habs (by decide)
          · rename_i hnlt
            intro _
            exact le_antisymm (not_lt.mp hnlt) hnn
      · exact Or.inl h
    · exact Or.inl h

lemma extract_inv (P : PdfRec → Prop)
    (hstep : ∀ st line r, r ∈ (pdfStep st line).2 → r ∈ st.2 ∨ P r) :
    ∀ (lines : List String) (st : Option DateV × List PdfRec),
      (∀ r ∈ st.2, P r) → ∀ r ∈ (lines.foldl pdfStep st).2, P r := by
  intro lines
  induction lines with
  | nil => intro st hst r hr; exact hst r hr
  | cons l ls ih =>
    intro st hst r hr
    rw [List.foldl_cons] at hr
    exact ih (pdfStep st l) (fun r2 hr2 => (hstep st l r2 hr2).elim (hst r2) id) r hr

/-- C10: every record the ledger text extractor emits has a non-negative
amount (the numeral pattern admits no sign), and such a record carries the
Saída (Expense) type exactly when its amount is 0, so a nonzero expense can
never originate from the extraction path alone. -/
theorem extractor_records_nonneg (text : String) (r : PdfRec)
    (h : r ∈ extractRecords text) :
    0 ≤ r.valor ∧ (r.tipo = "Saída" → r.valor = 0) :=
  extract_inv (fun r => 0 ≤ r.valor ∧ (r.tipo = "Saída" → r.valor = 0))
    (fun st line r2 hr2 => pdfStep_mem st line r2 hr2)
    (pySplitlines text) (none, []) (by simp) r h

/-- C10 witness: the text with a zero-amount currency line after a date line
emits one Saída record of amount 0, which the theorem accepts. -/
theorem extractor_records_nonneg_witness :
    0 ≤ (PdfRec.mk "01/02/2024" "x" 0 "Saída" "N/A").valor ∧
    ((PdfRec.mk "01/02/2024" "x" 0 "Saída" "N/A").tipo = "Saída" →
      (PdfRec.mk "01/02/2024" "x" 0 "Saída" "N/A").valor = 0) :=
  extractor_records_nonneg "01/02/2024\nx R$ 0,00" ⟨"01/02/2024", "x", 0, "Saída", "N/A"⟩
    (by with_unfolding_all decide)

/-! ## Claim C1 -/

lemma colIdx_get (n : String) :
    ∀ (l : List String) (i : ℕ), colIdx n l = some i → l.get? i = some n := by
  intro l
  induction l with
  | nil => intro i h; cases h
  | cons c cs ih =>
    intro i h
    unfold colIdx at h
    split at h
    · rename_i hc
      injection h with h
      subst h
      subst hc
      rfl
    · cases hcs : colIdx n cs with
      | none => rw [hcs] at h; cases h
      | some j =>
        rw [hcs] at h
        have h2 : some (j + 1) = some i := h
        injection h2 with h2
        subst h2
        simpa using ih j hcs

lemma colIdx_ne (n m : String) (l : List String) (i j : ℕ)
    (hn : colIdx n l = some i) (hm : colIdx m l = some j) (hnm : n ≠ m) : i ≠ j := by
  intro he
  subst he
  have h1 := colIdx_get n l i hn
  have h2 := colIdx_get m l i hm
  rw [h1] at h2
  injection h2 with h2
  exact hnm h2

lemma modCell_getD_ne (f : Cell → Cell) :
    ∀ (r : List Cell) (i j : ℕ), i ≠ j →
      (modCell f j r).getD i Cell.na = r.getD i Cell.na := by
  intro r
  induction r with
  | nil => intro i j _; cases j <;> rfl
  | cons c cs ih =>
    intro i j hne
    cases j with
    | zero =>
      cases i with
      | zero => exact absurd rfl hne
      | succ i2 => rfl
    | succ j2 =>
      cases i with
      | zero => rfl
      | succ i2 =>
        simp only [modCell, List.getD_cons_succ]
        exact ih i2 j2 (fun hh => hne (by rw [hh]))

lemma modCell_getD_self (f : Cell → Cell) :
    ∀ (r : List Cell) (i : ℕ), i < r.length →
      (modCell f i r).getD i Cell.na = f (r.getD i Cell.na) := by
  intro r
  induction r with
  | nil => intro i h; cases h
  | cons c cs ih =>
    intro i h
    cases i with
    | zero => rfl
    | succ i2 =>
      simp only [modCell, List.getD_cons_succ]
      exact ih i2 (Nat.lt_of_succ_lt_succ h)

lemma getD_num_lt (r : List Cell) (i : ℕ) (q : ℚ)
    (h : r.getD i Cell.na = Cell.num q) : i < r.length := by
  by_contra hh
  rw [List.getD_eq_default _ _ (Nat.le_of_not_lt hh)] at h
  cases h

/-- What claim C1 states of one record: writing r for the record before and
r2 for the record after the sign normalizer, a numeric amount keeps its
magnitude, becomes -abs and non-positive under the saida type, and +abs and
non-negative under any other type. -/
def signRowSpec (ti vi : ℕ) (r r2 : List Cell) : Prop :=
  ∀ q : ℚ, r.getD vi Cell.na = Cell.num q →
    ∃ q2 : ℚ, r2.getD vi Cell.na = Cell.num q2 ∧ |q2| = |q| ∧
      (r2.getD ti Cell.na = Cell.str "saida" → q2 = -|q| ∧ q2 ≤ 0) ∧
      (r2.getD ti Cell.na ≠ Cell.str "saida" → q2 = |q| ∧ 0 ≤ q2)

lemma rewriteValor_num (ti vi : ℕ) (r1 : List Cell) (q : ℚ)
    (h : r1.getD vi Cell.na = Cell.num q) :
    rewriteValor ti vi r1 = .ok (modCell (fun _ => Cell.num
      (if (match r1.getD ti Cell.na with | Cell.str s => s == "saida" | _ => false)
        then -|q| else |q|)) vi r1) := by
  unfold rewriteValor
  dsimp only
  rw [h]

lemma rewriteValor_spec (ti vi : ℕ) (hne : ti ≠ vi) (r r2 : List Cell)
    (h : rewriteValor ti vi (modCell normTipoCell ti r) = .ok r2) :
    signRowSpec ti vi r r2 := by
  intro q hq
  have hvq : (modCell normTipoCell ti r).getD vi Cell.na = Cell.num q := by
    rw [modCell_getD_ne normTipoCell r vi ti (fun hh => hne hh.symm)]
    exact hq
  have hlt : vi < (modCell normTipoCell ti r).length := getD_num_lt _ _ _ hvq
  rw [rewriteValor_num ti vi _ q hvq] at h
  injection h with h
  subst h
  generalize hr1 : modCell normTipoCell ti r = r1 at hvq hlt ⊢
  generalize hB : (match r1.getD ti Cell.na with
      | Cell.str s => s == "saida"
      | _ => false) = b
  rw [modCell_getD_ne _ r1 ti vi hne, modCell_getD_self _ r1 vi hlt]
  by_cases hs : r1.getD ti Cell.na = Cell.str "saida"
  · rw [hs] at hB
    simp only [beq_self_eq_true] at hB
    subst hB
    refine ⟨-|q|, by simp, by rw [abs_neg, abs_abs], fun _ => ⟨rfl, ?_⟩, fun hc => absurd hs hc⟩
    exact neg_nonpos.mpr (abs_nonneg q)
  · have hbf : b = false := by
      rw [← hB]
      rcases hcell : r1.getD ti Cell.na with _ | s | _ | _ <;> simp
      exact fun hc => hs (by rw [hcell, hc])
    subst hbf
    exact ⟨|q|, by simp, abs_abs q, fun hc => absurd hc hs, fun _ => ⟨rfl, abs_nonneg q⟩⟩

/-- C1: for a table whose sign normalizer run succeeds, every output record
(paired with its input record) satisfies the sign invariant: the normalized
tipo equal to saida forces amount = -abs(amount) and hence at most 0, any
other tipo forces amount = +abs(amount) and hence at least 0, and the
magnitude of the amount is preserved. -/
theorem sign_normalizer_invariant (t t2 : Table) (ti vi : ℕ)
    (hti : colIdx "tipo" t.cols = some ti) (hvi : colIdx "valor" t.cols = some vi)
    (h : signNormalize t = .ok t2) :
    List.Forall₂ (signRowSpec ti vi) t.rows t2.rows := by
  unfold signNormalize at h
  rw [hti, hvi] at h
  dsimp only at h
  rw [mapRes_eq_ok] at h
  obtain ⟨rs, hrs, ht2⟩ := h
  subst ht2
  have hF := listRes_ok_forall₂ _ _ _ hrs
  have hne : ti ≠ vi := colIdx_ne "tipo" "valor" t.cols ti vi hti hvi (by decide)
  rw [List.forall₂_map_left_iff] at hF
  exact List.Forall₂.imp (fun a b hab => rewriteValor_spec ti vi hne a b hab) hF

/-- C1 witness: one record typed Saída with amount 5 comes out as saida with
amount -5, satisfying the sign invariant. -/
theorem sign_normalizer_invariant_witness :
    List.Forall₂ (signRowSpec 0 1)
      [[Cell.str "Saída", Cell.num 5]] [[Cell.str "saida", Cell.num (-5)]] :=
  sign_normalizer_invariant
    ⟨["tipo", "valor"], [[Cell.str "Saída", Cell.num 5]]⟩
    ⟨["tipo", "valor"], [[Cell.str "saida", Cell.num (-5)]]⟩ 0 1
    (by with_unfolding_all decide) (by with_unfolding_all decide)
    (by with_unfolding_all decide)

/-! ## Claim C8 -/

/-- The order in which the top5 query actually emits its entries: strictly
descending by summed magnitude, and among equal magnitudes ascending by
description (the lexicographically smaller description first). -/
def topOrder (a b : String × ℚ) : Prop := b.2 < a.2 ∨ (a.2 = b.2 ∧ a.1 < b.1)

lemma mem_insDesc (x y : String × ℚ) :
    ∀ l, y ∈ insDesc x l → y = x ∨ y ∈ l := by
  intro l
  induction l with
  | nil =>
    intro h
    rw [insDesc, List.mem_singleton] at h
    exact Or.inl h
  | cons z zs ih =>
    intro h
    unfold insDesc at h
    split at h
    · rcases List.mem_cons.mp h with h | h
      · exact Or.inl h
      · exact Or.inr h
    · rcases List.mem_cons.mp h with h | h
      · exact Or.inr (h ▸ List.mem_cons_self z zs)
      · rcases ih h with h | h
        · exact Or.inl h
        · exact Or.inr (List.mem_cons_of_mem z h)

lemma mem_sortDesc (y : String × ℚ) :
    ∀ l, y ∈ sortDesc l → y ∈ l := by
  intro l
  induction l with
  | nil => intro h; cases h
  | cons x xs ih =>
    intro h
    rcases mem_insDesc x y (sortDesc xs) h with h | h
    · exact h ▸ List.mem_cons_self x xs
    · exact List.mem_cons_of_mem x (ih h)

lemma mem_insDesc_self (x : String × ℚ) : ∀ l, x ∈ insDesc x l := by
  intro l
  induction l with
  | nil => exact List.mem_singleton.mpr rfl
  | cons y ys ih =>
    unfold insDesc
    split
    · exact List.mem_cons_self x (y :: ys)
    · exact List.mem_cons_of_mem y ih

lemma mem_insDesc_of_mem (x y : String × ℚ) :
    ∀ l, y ∈ l → y ∈ insDesc x l := by
  intro l
  induction l with
  | nil => intro h; cases h
  | cons z zs ih =>
    intro h
    unfold insDesc
    split
    · exact List.mem_cons_of_mem x h
    · rcases List.mem_cons.mp h with h | h
      · exact h ▸ List.mem_cons_self z (insDesc x zs)
      · exact List.mem_cons_of_mem z (ih h)

lemma mem_sortDesc_of_mem (y : String × ℚ) :
    ∀ l, y ∈ l → y ∈ sortDesc l := by
  intro l
  induction l with
  | nil => intro h; cases h
  | cons x xs ih =>
    intro h
    rcases List.mem_cons.mp h with rfl | h
    · exact mem_insDesc_self y (sortDesc xs)
    · exact mem_insDesc_of_mem x y (sortDesc xs) (ih h)

lemma pairwise_insDesc (x : String × ℚ) :
    ∀ l, List.Pairwise topOrder l → (∀ y ∈ l, x.1 < y.1) →
      List.Pairwise topOrder (insDesc x l) := by
  intro l
  induction l with
  | nil => intro _ _; exact List.pairwise_singleton topOrder x
  | cons y ys ih =>
    intro hp hkey
    rw [List.pairwise_cons] at hp
    obtain ⟨hy, hys⟩ := hp
    unfold insDesc
    split
    · rename_i hle
      rw [List.pairwise_cons]
      refine ⟨?_, by rw [List.pairwise_cons]; exact ⟨hy, hys⟩⟩
      intro z hz
      rcases List.mem_cons.mp hz with rfl | hz
      · rcases lt_or_eq_of_le hle with hlt | heq
        · exact Or.inl hlt
        · exact Or.inr ⟨heq.symm, hkey z (List.mem_cons_self z ys)⟩
      · rcases hy z hz with hlt | ⟨heq, _⟩
        · exact Or.inl (lt_of_lt_of_le hlt hle)
        · rcases lt_or_eq_of_le hle with hlt2 | heq2
          · exact Or.inl (by rw [← heq]; exact hlt2)
          · exact Or.inr ⟨by rw [← heq2, heq], hkey z (List.mem_cons_of_mem y hz)⟩
    · rename_i hnle
      rw [List.pairwise_cons]
      constructor
      · intro z hz
        rcases mem_insDesc x z ys hz with rfl | hz
        · exact Or.inl (lt_of_not_le hnle)
        · exact hy z hz
      · exact ih hys (fun z hz => hkey z (List.mem_cons_of_mem y hz))

lemma pairwise_sortDesc :
    ∀ gs, List.Pairwise (fun a b : String × ℚ => a.1 < b.1) gs →
      List.Pairwise topOrder (sortDesc gs) := by
  intro gs
  induction gs with
  | nil => intro _; exact List.Pairwise.nil
  | cons x xs ih =>
    intro hp
    rw [List.pairwise_cons] at hp
    obtain ⟨hx, hxs⟩ := hp
    exact pairwise_insDesc x (sortDesc xs) (ih hxs) (fun y hy => hx y (mem_sortDesc y xs hy))

lemma mem_insKey (k z : String) :
    ∀ l, z ∈ insKey k l → z = k ∨ z ∈ l := by
  intro l
  induction l with
  | nil =>
    intro h
    rw [insKey, List.mem_singleton] at h
    exact Or.inl h
  | cons x xs ih =>
    intro h
    unfold insKey at h
    split at h
    · rcases List.mem_cons.mp h with h | h
      · exact Or.inl h
      · exact Or.inr h
    · split at h
      · exact Or.inr h
      · rcases List.mem_cons.mp h with h | h
        · exact Or.inr (h ▸ List.mem_cons_self x xs)
        · rcases ih h with h | h
          · exact Or.inl h
          · exact Or.inr (List.mem_cons_of_mem x h)

lemma pairwise_insKey (k : String) :
    ∀ l, List.Pairwise (fun a b : String => a < b) l →
      List.Pairwise (fun a b : String => a < b) (insKey k l) := by
  intro l
  induction l with
  | nil => intro _; exact List.pairwise_singleton _ k
  | cons x xs ih =>
    intro hp
    rw [List.pairwise_cons] at hp
    obtain ⟨hx, hxs⟩ := hp
    unfold insKey
    split
    · rename_i hlt
      have hkx : k < x := by simpa [strLt] using hlt
      rw [List.pairwise_cons]
      refine ⟨?_, by rw [List.pairwise_cons]; exact ⟨hx, hxs⟩⟩
      intro z hz
      rcases List.mem_cons.mp hz with rfl | hz
      · exact hkx
      · exact lt_trans hkx (hx z hz)
    · split
      · rw [List.pairwise_cons]; exact ⟨hx, hxs⟩
      · rename_i hnlt hne
        have hxk : x < k :=
          lt_of_le_of_ne (not_lt.mp (by simpa [strLt] using hnlt)) (Ne.symm hne)
        rw [List.pairwise_cons]
        constructor
        · intro z hz
          rcases mem_insKey k z xs hz with rfl | hz
          · exact hxk
          · exact hx z hz
        · exact ih hxs

lemma pairwise_sortedKeys (ps : List (String × ℚ)) :
    List.Pairwise (fun a b : String => a < b) (sortedKeys ps) := by
  unfold sortedKeys
  induction ps.map Prod.fst with
  | nil => exact List.Pairwise.nil
  | cons k ks ih => exact pairwise_insKey k _ ih

lemma pairwise_groupSums (ps : List (String × ℚ)) :
    List.Pairwise (fun a b : String × ℚ => a.1 < b.1) (groupSums ps) := by
  unfold groupSums
  rw [List.pairwise_map]
  exact pairwise_sortedKeys ps

lemma length_insDesc (x : String × ℚ) :
    ∀ l, (insDesc x l).length = l.length + 1 := by
  intro l
  induction l with
  | nil => rfl
  | cons y ys ih =>
    unfold insDesc
    split
    · rfl
    · simp [ih]

lemma length_sortDesc : ∀ l : List (String × ℚ), (sortDesc l).length = l.length := by
  intro l
  induction l with
  | nil => rfl
  | cons x xs ih => rw [sortDesc, length_insDesc, ih]; rfl

/-- C8 counterexample: with the expense description b encountered before a
and both groups summing to magnitude 10, the claimed first-encountered
tie-break predicts b first, but top5 returns a first: groupby sorts the group
keys, so ties are broken by the lexicographic order of the description. -/
theorem top5_first_encounter_tie_break_false :
    top5 ⟨["descricao", "valor"],
        [[Cell.str "b", Cell.num (-10)], [Cell.str "a", Cell.num (-10)]]⟩ =
      .ok [("a", 10), ("b", 10)] ∧
    top5 ⟨["descricao", "valor"],
        [[Cell.str "b", Cell.num (-10)], [Cell.str "a", Cell.num (-10)]]⟩ ≠
      .ok [("b", 10), ("a", 10)] := by
  with_unfolding_all decide

/-- C8 amended: the top5 query groups the rows with valor below zero by
description, sums magnitudes per group, and returns min 5 k entries where k
is the number of distinct expense descriptions (so exactly k when k < 5);
the output is descending by magnitude with ties broken in favor of the
lexicographically smaller description (groupby sorts group keys), not the
first-encountered group; every entry is one of the group sums; and the
selection is maximal: every group sum left out of the output is bounded by
every entry of the output, so the entries are the largest sums. -/
theorem top5_descending_lexicographic_ties (t : Table) (l : List (String × ℚ))
    (h : top5 t = .ok l) :
    l.length = min 5 (sortedKeys (expensePairs t)).length ∧
    List.Pairwise topOrder l ∧
    (∀ p ∈ l, p ∈ groupSums (expensePairs t)) ∧
    (∀ g ∈ groupSums (expensePairs t), g ∉ l → ∀ p ∈ l, g.2 ≤ p.2) := by
  unfold top5 at h
  rcases hd : colIdx "descricao" t.cols with _ | di <;>
    rcases hv : colIdx "valor" t.cols with _ | vi <;>
    rw [hd, hv] at h <;>
    cases h
  refine ⟨?_, ?_, ?_, ?_⟩
  · rw [nlargest5, List.length_take, length_sortDesc, groupSums, List.length_map]
  · exact List.Pairwise.sublist (List.take_sublist 5 _)
      (pairwise_sortDesc _ (pairwise_groupSums _))
  · intro p hp
    exact mem_sortDesc p _ (List.take_subset 5 _ hp)
  · intro g hg hgnot p hp
    have hgs : g ∈ sortDesc (groupSums (expensePairs t)) :=
      mem_sortDesc_of_mem g _ hg
    have hpw := pairwise_sortDesc _ (pairwise_groupSums (expensePairs t))
    rw [← List.take_append_drop 5 (sortDesc (groupSums (expensePairs t)))] at hgs hpw
    rw [List.pairwise_append] at hpw
    obtain ⟨-, -, hcross⟩ := hpw
    have hgdrop : g ∈ List.drop 5 (sortDesc (groupSums (expensePairs t))) := by
      rcases List.mem_append.mp hgs with hgt | hgt
      · exact absurd hgt hgnot
      · exact hgt
    rcases hcross p hp g hgdrop with hlt | ⟨heq, _⟩
    · exact le_of_lt hlt
    · exact le_of_eq heq.symm

/-- C8 amended witness: on the two-expense tie table the query returns the
two groups, a before b, in the stated order, with nothing left out. -/
theorem top5_descending_lexicographic_ties_witness :
    ([(("a" : String), (10 : ℚ)), ("b", 10)].length =
      min 5 (sortedKeys (expensePairs ⟨["descricao", "valor"],
        [[Cell.str "b", Cell.num (-10)], [Cell.str "a", Cell.num (-10)]]⟩)).length) ∧
    List.Pairwise topOrder [(("a" : String), (10 : ℚ)), ("b", 10)] ∧
    (∀ p ∈ [(("a" : String), (10 : ℚ)), ("b", 10)],
      p ∈ groupSums (expensePairs ⟨["descricao", "valor"],
        [[Cell.str "b", Cell.num (-10)], [Cell.str "a", Cell.num (-10)]]⟩)) ∧
    (∀ g ∈ groupSums (expensePairs ⟨["descricao", "valor"],
        [[Cell.str "b", Cell.num (-10)], [Cell.str "a", Cell.num (-10)]]⟩),
      g ∉ [(("a" : String), (10 : ℚ)), ("b", 10)] →
      ∀ p ∈ [(("a" : String), (10 : ℚ)), ("b", 10)], g.2 ≤ p.2) :=
  top5_descending_lexicographic_ties
    ⟨["descricao", "valor"], [[Cell.str "b", Cell.num (-10)], [Cell.str "a", Cell.num (-10)]]⟩
    [("a", 10), ("b", 10)] (by with_unfolding_all decide)


/-! ## Claim C9: character and string idempotence -/

def azChars : List Char :=
  ['a', 'b', 'c', 'd', 'e', 'f', 'g', 'h', 'i', 'j', 'k', 'l', 'm',
   'n', 'o', 'p', 'q', 'r', 's', 't', 'u', 'v', 'w', 'x', 'y', 'z']

lemma strip_fix_az (c : Char) (h : c ∈ azChars) : stripAccentChar c = c := by
  fin_cases h <;> rfl

lemma lower_fix_az (c : Char) (h : c ∈ azChars) : pyLowerChar c = c := by
  fin_cases h <;> rfl

lemma strip_cases (c : Char) : stripAccentChar c = c ∨ stripAccentChar c ∈ azChars := by
  unfold stripAccentChar
  split <;> simp [azChars]

lemma lower_cases (c : Char) : pyLowerChar c = c ∨ pyLowerChar c ∈ azChars := by
  unfold pyLowerChar
  split <;> simp [azChars]

lemma normChar_idem (c : Char) : normChar (normChar c) = normChar c := by
  unfold normChar
  rcases strip_cases c with h | h
  · rcases lower_cases c with h2 | h2
    · rw [h, h2, h, h2]
    · rw [h, strip_fix_az _ h2, lower_fix_az _ h2]
  · rw [lower_fix_az _ h, strip_fix_az _ h, lower_fix_az _ h]

lemma dropWhile_idem (p : Char → Bool) : ∀ l : List Char,
    (l.dropWhile p).dropWhile p = l.dropWhile p := by
  intro l
  induction l with
  | nil => rfl
  | cons x xs ih =>
    rw [List.dropWhile_cons]
    split
    · exact ih
    · rename_i h
      rw [List.dropWhile_cons, if_neg h]

lemma dropWhile_dropTrail (m : List Char) (h : m.dropWhile isPySpace = m) :
    (dropTrail m).dropWhile isPySpace = dropTrail m := by
  have hsplit : m.reverse.takeWhile isPySpace ++ m.reverse.dropWhile isPySpace = m.reverse :=
    List.takeWhile_append_dropWhile isPySpace m.reverse
  have hm : m = dropTrail m ++ (m.reverse.takeWhile isPySpace).reverse := by
    have h2 := congrArg List.reverse hsplit
    rw [List.reverse_append, List.reverse_reverse] at h2
    exact h2.symm
  cases hdt : dropTrail m with
  | nil => rfl
  | cons x bs =>
    rw [hdt] at hm
    have hx : isPySpace x = false := by
      by_contra hxx
      rw [hm, List.cons_append, List.dropWhile_cons,
        if_pos (by simpa using hxx)] at h
      have hlen := (List.dropWhile_sublist (l := bs ++ (m.reverse.takeWhile isPySpace).reverse)
        isPySpace).length_le
      rw [h] at hlen
      simp at hlen
    rw [List.dropWhile_cons, if_neg (by simp [hx])]

lemma trimChars_idem (l : List Char) : trimChars (trimChars l) = trimChars l := by
  have h1 : (l.dropWhile isPySpace).dropWhile isPySpace = l.dropWhile isPySpace :=
    dropWhile_idem _ l
  have h2 := dropWhile_dropTrail _ h1
  unfold trimChars
  rw [h2]
  unfold dropTrail
  rw [List.reverse_reverse, dropWhile_idem]

lemma mem_dropWhile (p : Char → Bool) (l : List Char) (x : Char)
    (h : x ∈ l.dropWhile p) : x ∈ l :=
  (List.dropWhile_sublist p).subset h

lemma mem_trimChars (l : List Char) (x : Char) (h : x ∈ trimChars l) : x ∈ l := by
  unfold trimChars dropTrail at h
  rw [List.mem_reverse] at h
  have h2 := mem_dropWhile _ _ _ h
  rw [List.mem_reverse] at h2
  exact mem_dropWhile _ _ _ h2

lemma map_id_of_fix {α : Type} (f : α → α) : ∀ l : List α,
    (∀ x ∈ l, f x = x) → l.map f = l := by
  intro l
  induction l with
  | nil => intro _; rfl
  | cons x xs ih =>
    intro h
    rw [List.map_cons, h x (List.mem_cons_self x xs),
      ih (fun y hy => h y (List.mem_cons_of_mem x hy))]

lemma normStr_idem (s : String) : normStr (normStr s) = normStr s := by
  unfold normStr
  congr 1
  show trimChars ((trimChars (s.data.map normChar)).map normChar) =
    trimChars (s.data.map normChar)
  have hfix : ∀ x ∈ trimChars (s.data.map normChar), normChar x = x := by
    intro x hx
    have hx2 := mem_trimChars _ _ hx
    rw [List.mem_map] at hx2
    obtain ⟨c, _, hc⟩ := hx2
    rw [← hc, normChar_idem]
  rw [map_id_of_fix _ _ hfix, trimChars_idem]

/-! ## Claim C9: table-level lemmas -/

lemma mapColByName_cols (n : String) (f : Cell → Cell) (t : Table) :
    (mapColByName n f t).cols = t.cols := by
  unfold mapColByName
  cases colIdx n t.cols <;> rfl

lemma colIdx_of_mem (n : String) :
    ∀ l : List String, n ∈ l → ∃ i, colIdx n l = some i := by
  intro l
  induction l with
  | nil => intro h; cases h
  | cons c cs ih =>
    intro h
    unfold colIdx
    by_cases hc : c = n
    · exact ⟨0, by rw [if_pos hc]⟩
    · rcases List.mem_cons.mp h with h | h
      · exact absurd h.symm hc
      · obtain ⟨i, hi⟩ := ih h
        exact ⟨i + 1, by rw [if_neg hc, hi]; rfl⟩

lemma modCell_modCell (f : Cell → Cell) (hf : ∀ c, f (f c) = f c) :
    ∀ (r : List Cell) (i : ℕ), modCell f i (modCell f i r) = modCell f i r := by
  intro r
  induction r with
  | nil => intro i; cases i <;> rfl
  | cons c cs ih =>
    intro i
    cases i with
    | zero => simp [modCell, hf]
    | succ i2 => simp [modCell, ih i2]

lemma modCell_comm (f g : Cell → Cell) :
    ∀ (r : List Cell) (i j : ℕ), i ≠ j →
      modCell f i (modCell g j r) = modCell g j (modCell f i r) := by
  intro r
  induction r with
  | nil => intro i j _; cases i <;> cases j <;> rfl
  | cons c cs ih =>
    intro i j hij
    cases i with
    | zero =>
      cases j with
      | zero => exact absurd rfl hij
      | succ j2 => rfl
    | succ i2 =>
      cases j with
      | zero => rfl
      | succ j2 =>
        simp only [modCell, List.cons.injEq, true_and]
        exact ih i2 j2 (fun hh => hij (by rw [hh]))

lemma toDatetimeCell_idem (c : Cell) : toDatetimeCell (toDatetimeCell c) = toDatetimeCell c := by
  cases c with
  | str s =>
    cases h : parseDateStr s <;> simp [toDatetimeCell, h]
  | num q => rfl
  | date d => rfl
  | na => rfl

lemma toNumericFillCell_idem (c : Cell) :
    toNumericFillCell (toNumericFillCell c) = toNumericFillCell c := by
  cases c with
  | str s =>
    cases h : parseNumStr s <;> simp [toNumericFillCell, h]
  | num q => rfl
  | date d => rfl
  | na => rfl

lemma mapColByName_same (n : String) (f : Cell → Cell) (hf : ∀ c, f (f c) = f c) (t : Table) :
    mapColByName n f (mapColByName n f t) = mapColByName n f t := by
  unfold mapColByName
  cases h : colIdx n t.cols with
  | none => rw [h]
  | some i =>
    simp only [h]
    rw [List.map_map]
    congr 1
    exact List.map_congr_left (fun r _ => modCell_modCell f hf r i)

lemma mapColByName_swap (n m : String) (f g : Cell → Cell) (hnm : n ≠ m) (t : Table) :
    mapColByName n f (mapColByName m g t) = mapColByName m g (mapColByName n f t) := by
  unfold mapColByName
  cases hn : colIdx n t.cols with
  | none =>
    cases hm : colIdx m t.cols with
    | none => simp only [hn, hm]
    | some j => simp only [hn, hm]
  | some i =>
    cases hm : colIdx m t.cols with
    | none => simp only [hn, hm]
    | some j =>
      simp only [hn, hm]
      rw [List.map_map, List.map_map]
      congr 1
      exact List.map_congr_left
        (fun r _ => (modCell_comm g f r j i
          (fun hh => colIdx_ne n m t.cols i j hn hm hnm hh.symm)).symm)

lemma convSteps_idem (t : Table) : convSteps (convSteps t) = convSteps t := by
  unfold convSteps
  rw [mapColByName_swap "data" "valor" toDatetimeCell toNumericFillCell (by decide),
    mapColByName_same "data" toDatetimeCell toDatetimeCell_idem,
    mapColByName_same "valor" toNumericFillCell toNumericFillCell_idem]

lemma descStep_of_mem (t : Table) (h : "descricao" ∈ t.cols) : descStep t = t := by
  unfold descStep
  rw [if_pos h]

lemma tipoStep_of_mem (t : Table) (h : "tipo" ∈ t.cols) : tipoStep t = .ok t := by
  unfold tipoStep
  rw [if_pos h]

lemma catStep_of_mem (t : Table) (h : "categoria" ∈ t.cols) : catStep t = t := by
  unfold catStep
  rw [if_pos h]

lemma descStep_mem_mono (t : Table) (n : String) (h : n ∈ t.cols) :
    n ∈ (descStep t).cols := by
  unfold descStep
  split
  · exact h
  · exact List.mem_append_left _ h

lemma descStep_mem_desc (t : Table) : "descricao" ∈ (descStep t).cols := by
  unfold descStep
  split
  · assumption
  · exact List.mem_append_right _ (List.mem_singleton.mpr rfl)

lemma descStep_cols_cases (t : Table) (x : String) (h : x ∈ (descStep t).cols) :
    x ∈ t.cols ∨ x = "descricao" := by
  unfold descStep at h
  split at h
  · exact Or.inl h
  · rcases List.mem_append.mp h with h | h
    · exact Or.inl h
    · exact Or.inr (List.mem_singleton.mp h)

lemma catStep_mem_mono (t : Table) (n : String) (h : n ∈ t.cols) :
    n ∈ (catStep t).cols := by
  unfold catStep
  split
  · exact h
  · exact List.mem_append_left _ h

lemma catStep_mem_cat (t : Table) : "categoria" ∈ (catStep t).cols := by
  unfold catStep
  split
  · assumption
  · exact List.mem_append_right _ (List.mem_singleton.mpr rfl)

lemma catStep_cols_cases (t : Table) (x : String) (h : x ∈ (catStep t).cols) :
    x ∈ t.cols ∨ x = "categoria" := by
  unfold catStep at h
  split at h
  · exact Or.inl h
  · rcases List.mem_append.mp h with h | h
    · exact Or.inl h
    · exact Or.inr (List.mem_singleton.mp h)

lemma tipoStep_mem (t w : Table) (h : tipoStep t = .ok w) (hval : "valor" ∈ t.cols) :
    "tipo" ∈ w.cols ∧ (∀ n, n ∈ t.cols → n ∈ w.cols) ∧
      (∀ x, x ∈ w.cols → x ∈ t.cols ∨ x = "tipo") := by
  unfold tipoStep at h
  split at h
  · rename_i htipo
    cases h
    exact ⟨htipo, fun n hn => hn, fun x hx => Or.inl hx⟩
  · cases hidx : colIdx "valor" t.cols with
    | none =>
      obtain ⟨i, hi⟩ := colIdx_of_mem _ _ hval
      rw [hi] at hidx
      cases hidx
    | some vi =>
      rw [hidx, mapRes_eq_ok] at h
      obtain ⟨rs, _, hw⟩ := h
      subst hw
      refine ⟨List.mem_append_right _ (List.mem_singleton.mpr rfl),
        fun n hn => List.mem_append_left _ hn, fun x hx => ?_⟩
      rcases List.mem_append.mp hx with hx | hx
      · exact Or.inl hx
      · exact Or.inr (List.mem_singleton.mp hx)

lemma parse_csv_eq (t : Table) (hd : "data" ∈ normalize_columns t.cols)
    (hv : "valor" ∈ normalize_columns t.cols) :
    parse_csv t = mapRes (fun t3 => convSteps (catStep t3))
      (tipoStep (descStep ⟨normalize_columns t.cols, t.rows⟩)) := by
  simp [parse_csv, hd, hv]

/-- C9: parse_csv is idempotent on its own output: a second run over an
already-canonical table (the result of a successful first run over a table
with duplicate-free normalized headers) returns it unchanged, so nothing is
re-defaulted and the tipo column present after the first run is never
re-derived from the amount sign. -/
theorem parse_csv_idempotent (t t2 : Table)
    (_hnd : (normalize_columns t.cols).Nodup) (h : parse_csv t = .ok t2) :
    parse_csv t2 = .ok t2 := by
  by_cases hd : "data" ∈ normalize_columns t.cols
  case neg => simp [parse_csv, hd] at h
  by_cases hv : "valor" ∈ normalize_columns t.cols
  case neg => simp [parse_csv, hd, hv] at h
  rw [parse_csv_eq t hd hv, mapRes_eq_ok] at h
  obtain ⟨t3, ht3, ht2⟩ := h
  subst ht2
  have hvald : "valor" ∈ (descStep (⟨normalize_columns t.cols, t.rows⟩ : Table)).cols :=
    descStep_mem_mono _ _ hv
  obtain ⟨htipo3, hmono3, hsub3⟩ := tipoStep_mem _ _ ht3 hvald
  have ht2cols : (convSteps (catStep t3)).cols = (catStep t3).cols := by
    unfold convSteps
    rw [mapColByName_cols, mapColByName_cols]
  have hdataF : "data" ∈ (catStep t3).cols :=
    catStep_mem_mono _ _ (hmono3 _ (descStep_mem_mono _ _ hd))
  have hvalF : "valor" ∈ (catStep t3).cols := catStep_mem_mono _ _ (hmono3 _ hvald)
  have hdescF : "descricao" ∈ (catStep t3).cols :=
    catStep_mem_mono _ _ (hmono3 _ (descStep_mem_desc _))
  have htipoF : "tipo" ∈ (catStep t3).cols := catStep_mem_mono _ _ htipo3
  have hcatF : "categoria" ∈ (catStep t3).cols := catStep_mem_cat _
  have hfix : ∀ x ∈ (catStep t3).cols, normStr x = x := by
    intro x hx
    rcases catStep_cols_cases _ _ hx with hx | hx
    · rcases hsub3 _ hx with hx | hx
      · rcases descStep_cols_cases _ _ hx with hx | hx
        · rw [show ((⟨normalize_columns t.cols, t.rows⟩ : Table)).cols =
              normalize_columns t.cols from rfl] at hx
          unfold normalize_columns at hx
          rw [List.mem_map] at hx
          obtain ⟨y, _, hy⟩ := hx
          rw [← hy, normStr_idem]
        · rw [hx]; decide
      · rw [hx]; decide
    · rw [hx]; decide
  have hnormF : normalize_columns (convSteps (catStep t3)).cols =
      (convSteps (catStep t3)).cols := by
    rw [ht2cols]
    rw [show normalize_columns (catStep t3).cols = (catStep t3).cols.map normStr from rfl]
    exact map_id_of_fix _ _ hfix
  rw [parse_csv_eq _ (by rw [hnormF, ht2cols]; exact hdataF)
    (by rw [hnormF, ht2cols]; exact hvalF)]
  have htbl : (⟨normalize_columns (convSteps (catStep t3)).cols,
      (convSteps (catStep t3)).rows⟩ : Table) = convSteps (catStep t3) := by
    rw [hnormF]
  rw [htbl, descStep_of_mem _ (by rw [ht2cols]; exact hdescF),
    tipoStep_of_mem _ (by rw [ht2cols]; exact htipoF)]
  simp only [mapRes]
  rw [catStep_of_mem _ (by rw [ht2cols]; exact hcatF), convSteps_idem]

/-- C9 witness: the canonical one-row output of a first parse_csv run passes
through a second run unchanged. -/
theorem parse_csv_idempotent_witness :
    parse_csv ⟨["data", "valor", "descricao", "tipo", "categoria"],
      [[Cell.date ⟨1, 1, 2024⟩, Cell.num 10, Cell.str "N/A", Cell.str "Entrada",
        Cell.str "N/A"]]⟩ =
    .ok ⟨["data", "valor", "descricao", "tipo", "categoria"],
      [[Cell.date ⟨1, 1, 2024⟩, Cell.num 10, Cell.str "N/A", Cell.str "Entrada",
        Cell.str "N/A"]]⟩ :=
  parse_csv_idempotent ⟨["Data", "Valor"], [[Cell.str "01/01/2024", Cell.num 10]]⟩
    ⟨["data", "valor", "descricao", "tipo", "categoria"],
      [[Cell.date ⟨1, 1, 2024⟩, Cell.num 10, Cell.str "N/A", Cell.str "Entrada",
        Cell.str "N/A"]]⟩
    (by with_unfolding_all decide) (by with_unfolding_all decide)
